import Mathlib

set_option linter.unusedVariables false
set_option maxRecDepth 100000

/-! Shallow embedding of the Readability Helper core: text statistics,
the readability scoring formulas, the difficulty ranker, and the seam
finder, translated from `src/extension.ts` and `src/seamFinder.ts`.
Texts are lists of characters; JS floating point arithmetic is modelled
over the rationals; the external syllable counter and the two
familiar-word vocabulary lists are opaque parameters. -/

/-- JS `\w` character class: ASCII letters, digits, underscore. -/
def isWordChar (c : Char) : Bool := c.isAlphanum || c == '_'

/-- JS `\s` character class (the common whitespace characters). -/
def isSpaceChar (c : Char) : Bool :=
  c == ' ' || c == '\t' || c == '\n' || c == '\r' || c == '\x0b' || c == '\x0c'

/-- Accumulator pass extracting the maximal `\w+` runs of a text,
as in `docContent.match(/\w+/g)`. -/
def wordsOfAux : List Char → List Char → List (List Char)
  | [], acc => if acc.isEmpty then [] else [acc.reverse]
  | c :: rest, acc =>
    if isWordChar c then wordsOfAux rest (c :: acc)
    else if acc.isEmpty then wordsOfAux rest []
    else acc.reverse :: wordsOfAux rest []

/-- The maximal `\w+` runs (word occurrences) of a text. -/
def wordsOf (docContent : List Char) : List (List Char) := wordsOfAux docContent []

/-- `_getWordCount`: the number of `/\w+/g` matches. -/
def getWordCount (docContent : List Char) : Nat := (wordsOf docContent).length

/-- `_getCharacterCount`: length of the text after removing all whitespace
(`docContent.replace(/\s+/g, '')`). -/
def getCharacterCount (docContent : List Char) : Nat :=
  (docContent.filter (fun c => !isSpaceChar c)).length

/-- One-pass scan counting the `/\w[.?!](\s|$)/g` matches with the usual
non-overlapping left-to-right global-regex semantics. The state records
the progress of a candidate match ending just before the current
character: 0 = none, 1 = the previous character was a `\w`, 2 = the two
previous characters were `\w` then one of `.?!` (a match completes if the
current character is whitespace, or at end of text). On a failed
candidate the scan resumes at the next position, which is sound because
neither `.?!` nor whitespace can begin a match. -/
def countTermAux : Nat → List Char → Nat
  | st, [] => if st = 2 then 1 else 0
  | st, c :: rest =>
    if st = 2 then
      if isSpaceChar c then 1 + countTermAux 0 rest
      else countTermAux (if isWordChar c then 1 else 0) rest
    else if st = 1 && (c == '.' || c == '?' || c == '!') then countTermAux 2 rest
    else countTermAux (if isWordChar c then 1 else 0) rest

/-- Count of `/\w[.?!](\s|$)/g` matches. -/
def countTerm (docContent : List Char) : Nat := countTermAux 0 docContent

/-- One-pass scan counting the `/\w:?\n/g` matches with the usual
non-overlapping left-to-right global-regex semantics. The state is
0 = no candidate, 1 = the previous character was a `\w`, 2 = the two
previous characters were `\w` then `:` (a match completes if the current
character is a newline). On a failed candidate the scan resumes soundly
because `:` and `\n` cannot begin a match. -/
def countColonAux : Nat → List Char → Nat
  | _, [] => 0
  | st, c :: rest =>
    if c == '\n' && (st = 1 || st = 2) then 1 + countColonAux 0 rest
    else if c == ':' && st = 1 then countColonAux 2 rest
    else countColonAux (if isWordChar c then 1 else 0) rest

/-- Count of `/\w:?\n/g` matches. -/
def countColon (docContent : List Char) : Nat := countColonAux 0 docContent

/-- `_getSentenceCount`: the two regex match counts, floored to 1 when the
raw total is 0. -/
def getSentenceCount (docContent : List Char) : Nat :=
  let sentenceCount := countTerm docContent + countColon docContent
  if 0 < sentenceCount then sentenceCount else 1

/-- The vocabulary name accepted for the Dale-Chall word list. -/
def vocabDaleChall : String := "dale-chall"

/-- The vocabulary name accepted for the Spache word list. -/
def vocabSpache : String := "spache"

/-- The per-word loop of `_getDifficultWordCount`: the number of word
occurrences `w` of the text with `familiarWords.indexOf(w) > -1`,
i.e. the words that ARE on the given list (case-sensitive exact match). -/
def countListed (familiarWords : List (List Char)) (docContent : List Char) : Nat :=
  ((wordsOf docContent).filter (fun w => familiarWords.contains w)).length

/-- `_getDifficultWordCount`: dispatch on the vocabulary name, then count
the word occurrences found on the selected familiar-word list; unknown
vocabulary names yield 0. -/
def getDifficultWordCount (daleChallWords spacheWords : List (List Char))
    (docContent : List Char) (vocabulary : String) : Nat :=
  if vocabulary = vocabDaleChall then countListed daleChallWords docContent
  else if vocabulary = vocabSpache then countListed spacheWords docContent
  else 0

/-- JS `Math.round`: round half toward positive infinity. -/
def jsRound (q : ℚ) : Int := ⌊q + 1 / 2⌋

/-- JS `Math.ceil`. -/
def jsCeil (q : ℚ) : Int := ⌈q⌉

/-- `_calculateAutomatedReadability`. -/
def calculateAutomatedReadability (sentences words characters : ℚ) : ℚ :=
  4.71 * (characters / words) + 0.5 * (words / sentences) - 21.43

/-- `_calculateColemanLiau`. -/
def calculateColemanLiau (sentences words characters : ℚ) : ℚ :=
  0.0588 * (characters / words * 100) - 0.296 * (sentences / words * 100) - 15.8

/-- `_calculateDaleChall`, with the raw-score offset when the difficult
word percentage exceeds 5. -/
def calculateDaleChall (sentences words difficultWordPercentage : ℚ) : ℚ :=
  0.1579 * difficultWordPercentage + 0.0496 * (words / sentences) +
    (if 5 < difficultWordPercentage then 3.6365 else 0)

/-- `_calculateFlesch`. -/
def calculateFlesch (sentences words syllables : ℚ) : ℚ :=
  206.835 - 1.015 * (words / sentences) - 84.6 * (syllables / words)

/-- `_calculateFleschKincaid`. -/
def calculateFleschKincaid (sentences words syllables : ℚ) : ℚ :=
  0.39 * (words / sentences) + 11.8 * (syllables / words) - 15.59

/-- `_calculateSpache`. -/
def calculateSpache (sentences words difficultWords : ℚ) : ℚ :=
  0.659 + 0.121 * (words / sentences) + 0.082 * (difficultWords / words * 100)

/-- `_getAutomatedReadabilitySentence`. -/
def getAutomatedReadabilitySentence (sentence : List Char) : ℚ :=
  calculateAutomatedReadability 1 (getWordCount sentence) (getCharacterCount sentence)

/-- `_getAutomatedReadabilityDoc`. -/
def getAutomatedReadabilityDoc (docContent : List Char) : Int :=
  jsCeil (calculateAutomatedReadability (getSentenceCount docContent)
    (getWordCount docContent) (getCharacterCount docContent))

/-- `_getColemanLiauSentence`. -/
def getColemanLiauSentence (sentence : List Char) : ℚ :=
  calculateColemanLiau 1 (getWordCount sentence) (getCharacterCount sentence)

/-- `_getDaleChallSentence`; the vocabulary lists are opaque parameters. -/
def getDaleChallSentence (daleChallWords spacheWords : List (List Char))
    (sentence : List Char) : ℚ :=
  let words : ℚ := getWordCount sentence
  let difficultWordCount : ℚ :=
    getDifficultWordCount daleChallWords spacheWords sentence vocabDaleChall
  let difficultWordPercentage := difficultWordCount / words * 100
  calculateDaleChall 1 words difficultWordPercentage

/-- `_getFleschSentence`; `syl` is the opaque syllable counter. -/
def getFleschSentence (syl : List Char → Nat) (sentence : List Char) : ℚ :=
  calculateFlesch 1 (getWordCount sentence) (syl sentence)

/-- `_getFleschKincaidSentence`; note the `Math.round`. -/
def getFleschKincaidSentence (syl : List Char → Nat) (sentence : List Char) : ℚ :=
  ((jsRound (calculateFleschKincaid 1 (getWordCount sentence) (syl sentence)) : ℤ) : ℚ)

/-- `_getSpacheSentence`. -/
def getSpacheSentence (daleChallWords spacheWords : List (List Char))
    (sentence : List Char) : ℚ :=
  calculateSpache 1 (getWordCount sentence)
    (getDifficultWordCount daleChallWords spacheWords sentence vocabSpache)

/-- `_getSpacheDoc`: the sentence count is computed but the constant 1 is
what is passed to the formula. -/
def getSpacheDoc (daleChallWords spacheWords : List (List Char))
    (docContent : List Char) : Int :=
  let sentences := getSentenceCount docContent
  let words := getWordCount docContent
  let difficultWords := getDifficultWordCount daleChallWords spacheWords docContent vocabSpache
  jsRound (calculateSpache 1 words difficultWords)

/-- The `SeamFinder` constructor loop: walk `original` and `stripped` with
two cursors; on a character match close any in-progress deleted run by
recording a seam `(strippedIndex, runLength)`; on a mismatch advance only
the original cursor, marking the start of a run if none is in progress. -/
def buildSeams : List Char → List Char → Nat → Nat → Option Nat → List (Nat × Nat)
  | [], _, _, _, _ => []
  | _ :: _, [], _, _, _ => []
  | o :: os, s :: ss, originalIndex, strippedIndex, seamStart =>
    if o = s then
      (match seamStart with
       | some v => [(strippedIndex, originalIndex - v)]
       | none => []) ++ buildSeams os ss (originalIndex + 1) (strippedIndex + 1) none
    else
      buildSeams os (s :: ss) (originalIndex + 1) strippedIndex
        (some (seamStart.getD originalIndex))

/-- The seam table recorded by `new SeamFinder(original, stripped)`. -/
def SeamFinder.seams (original stripped : List Char) : List (Nat × Nat) :=
  buildSeams original stripped 0 0 none

/-- `SeamFinder.lookup`: translate a (start, length) range in stripped-text
coordinates to original-text coordinates by accumulating, over every seam,
its deleted-run length into the start correction when `startIndex >= seam
index` and into the end correction when `startIndex + length > seam index`. -/
def SeamFinder.lookup (seams : List (Nat × Nat)) (startIndex length : Nat) : Int × Int :=
  let endIndex := startIndex + length
  let startResult : Nat := ((seams.filter (fun p => p.1 ≤ startIndex)).map Prod.snd).sum
  let endResult : Nat := ((seams.filter (fun p => p.1 < endIndex)).map Prod.snd).sum
  ((startResult : Int) + (startIndex : Int),
    (length : Int) + (endResult : Int) - (startResult : Int))

/-- The greedy left-to-right alignment of `stripped` inside `original`:
the list of original-text indices matched, in order, to the successive
characters of `stripped`. -/
def greedyMatched : List Char → List Char → Nat → List Nat
  | [], _, _ => []
  | _ :: _, [], _ => []
  | o :: os, s :: ss, originalIndex =>
    if o = s then originalIndex :: greedyMatched os ss (originalIndex + 1)
    else greedyMatched os (s :: ss) (originalIndex + 1)

/-- The seams determined by a list of matched original positions: walking
the matched positions with the next expected original index, record a seam
for every nonempty gap. Used to characterise `buildSeams`. -/
def gapSeams : Nat → Nat → List Nat → List (Nat × Nat)
  | _, _, [] => []
  | expected, j, a :: ms =>
    (if expected < a then [(j, a - expected)] else []) ++ gapSeams (a + 1) (j + 1) ms

/-- Ordering used on scored sentences: first component (the difficulty
score) descending, as with the JS comparator `(a, b) => b[0] - a[0]`. -/
def scoreGE {α : Type} (a b : ℚ × α) : Prop := b.1 ≤ a.1

instance {α : Type} : DecidableRel (scoreGE (α := α)) :=
  fun a b => inferInstanceAs (Decidable (b.1 ≤ a.1))

/-- Score-descending order on bare scores. -/
def qGE (a b : ℚ) : Prop := b ≤ a

instance : DecidableRel qGE := fun a b => inferInstanceAs (Decidable (b ≤ a))

/-- One iteration of the difficulty-retention loop in `updateReadability`
(the non-Flesch branch): push the new scored sentence, stable-sort by score
descending, then pop down to 3 entries. -/
def rankStep {α : Type} (acc : List (ℚ × α)) (x : ℚ × α) : List (ℚ × α) :=
  ((acc ++ [x]).insertionSort scoreGE).take 3

/-- The whole retention loop over the scored sentences in document order. -/
def rankSentences {α : Type} (l : List (ℚ × α)) : List (ℚ × α) :=
  l.foldl rankStep []

/-- The retention loop projected onto bare scores. -/
def rankStepScores (acc : List ℚ) (x : ℚ) : List ℚ :=
  ((acc ++ [x]).insertionSort qGE).take 3

/-- The score-only retention loop. -/
def rankScores (l : List ℚ) : List ℚ := l.foldl rankStepScores []

/-- A vocabulary name different from both recognised vocabulary names. -/
def fooVocab : String := "foo"

/-- Concrete two-sentence, ten-word document, used to exhibit how the
Spache document scorer treats the sentence count. -/
def spacheDocText : List Char :=
  ['H','i',' ','t','h','e','r','e',' ','n','o','w',' ','w','e',' ','g','o','.',' ',
   'G','o',' ','o','n',' ','n','o','w',' ','t','h','e','n',' ','t','o','o','.']

theorem map_fst_orderedInsert {α : Type} (x : ℚ × α) (l : List (ℚ × α)) :
    (List.orderedInsert scoreGE x l).map Prod.fst =
      List.orderedInsert qGE x.1 (l.map Prod.fst) := by
  induction l with
  | nil => rfl
  | cons b t ih =>
    simp only [List.orderedInsert, List.map_cons]
    split_ifs with h1 h2 h2
    · simp
    · exact absurd h1 h2
    · exact absurd h2 h1
    · rw [List.map_cons, ih]

theorem map_fst_insertionSort {α : Type} (l : List (ℚ × α)) :
    (l.insertionSort scoreGE).map Prod.fst = (l.map Prod.fst).insertionSort qGE := by
  induction l with
  | nil => rfl
  | cons b t ih =>
    simp only [List.insertionSort, List.map_cons]
    rw [map_fst_orderedInsert, ih]

theorem map_fst_rankStep {α : Type} (acc : List (ℚ × α)) (x : ℚ × α) :
    (rankStep acc x).map Prod.fst = rankStepScores (acc.map Prod.fst) x.1 := by
  unfold rankStep rankStepScores
  rw [List.map_take, map_fst_insertionSort, List.map_append]
  rfl

theorem map_fst_foldl_rankStep {α : Type} (l : List (ℚ × α)) (acc : List (ℚ × α)) :
    (l.foldl rankStep acc).map Prod.fst =
      (l.map Prod.fst).foldl rankStepScores (acc.map Prod.fst) := by
  induction l generalizing acc with
  | nil => rfl
  | cons b t ih =>
    simp only [List.foldl_cons, List.map_cons]
    rw [ih, map_fst_rankStep]

theorem map_fst_rankSentences {α : Type} (l : List (ℚ × α)) :
    (rankSentences l).map Prod.fst = rankScores (l.map Prod.fst) :=
  map_fst_foldl_rankStep l []

/-- C5: for every non-empty text, the sentence count is at least 1: when
the two regex match counts sum to 0 the function returns 1, so no
document-level formula divides by a zero sentence count. -/
theorem claim5_sentenceCount_pos (docContent : List Char) (h : docContent ≠ []) :
    1 ≤ getSentenceCount docContent := by
  unfold getSentenceCount
  dsimp only
  split <;> omega

theorem claim5_sentenceCount_pos_witness :
    (['H','i','.'] : List Char) ≠ [] ∧ 1 ≤ getSentenceCount ['H','i','.'] :=
  ⟨by decide, claim5_sentenceCount_pos ['H','i','.'] (by decide)⟩

/-- C9: for every text and every vocabulary name other than the two
recognised ones, the difficult-word counting function returns 0 rather
than signalling an error. -/
theorem claim9_unknown_vocab_zero (daleChallWords spacheWords : List (List Char))
    (docContent : List Char) (vocabulary : String)
    (h1 : vocabulary ≠ vocabDaleChall) (h2 : vocabulary ≠ vocabSpache) :
    getDifficultWordCount daleChallWords spacheWords docContent vocabulary = 0 := by
  unfold getDifficultWordCount
  rw [if_neg h1, if_neg h2]

theorem claim9_unknown_vocab_zero_witness :
    fooVocab ≠ vocabDaleChall ∧ fooVocab ≠ vocabSpache ∧
      getDifficultWordCount [] [] ['H','i'] fooVocab = 0 :=
  ⟨by decide, by decide,
    claim9_unknown_vocab_zero [] [] ['H','i'] fooVocab (by decide) (by decide)⟩

/-- C1: the claim says the difficult-word count is the number of word
occurrences ABSENT from the vocabulary, but on the text made of the single
word `the`, with a Dale-Chall familiar list containing `the`, the code
counts 1 difficult word (it counts the words PRESENT on the familiar
list via `indexOf(word) > -1`) while the number of absent words is 0. -/
theorem claim1_difficult_count_counts_familiar :
    getDifficultWordCount [['t','h','e']] [] ['t','h','e'] vocabDaleChall = 1 ∧
    ((wordsOf ['t','h','e']).filter
      (fun w => !([['t','h','e']] : List (List Char)).contains w)).length = 0 := by
  decide

/-- C2: on a ten-word, two-sentence document (with an empty Spache list,
so 0 familiar-word hits), the Spache document scorer returns 2, the value
of the formula at `sentences := 1`, while the claimed value using the true
sentence count of the document is 1. -/
theorem claim2_spache_doc_ignores_sentence_count :
    getSpacheDoc [] [] spacheDocText = 2 ∧
    getSentenceCount spacheDocText = 2 ∧
    jsRound (calculateSpache (getSentenceCount spacheDocText)
      (getWordCount spacheDocText)
      (getDifficultWordCount [] [] spacheDocText vocabSpache)) = 1 := by
  have hs : getSentenceCount spacheDocText = 2 := by decide
  have hw : getWordCount spacheDocText = 10 := by decide
  have hd : getDifficultWordCount [] [] spacheDocText vocabSpache = 0 := by decide
  refine ⟨?_, hs, ?_⟩
  · simp only [getSpacheDoc, hw, hd]
    unfold jsRound calculateSpache
    norm_num
  · rw [hs, hw, hd]
    unfold jsRound calculateSpache
    norm_num

/-- C4 counterexample: the Flesch-Kincaid sentence-level function does NOT
return the unrounded formula body: with a syllable counter reporting 1
syllable, on the one-word sentence `ab` it returns -3 (it applies
`Math.round`) while the formula body evaluates to -17/5. -/
theorem claim4_fk_sentence_rounds_cex :
    getFleschKincaidSentence (fun _ => 1) ['a','b'] ≠
      calculateFleschKincaid 1 (getWordCount ['a','b']) 1 := by
  have hw : getWordCount ['a','b'] = 1 := by decide
  unfold getFleschKincaidSentence
  rw [hw]
  unfold jsRound calculateFleschKincaid
  norm_num

/-- C4 amended: for every formula except SMOG and Flesch-Kincaid, the
sentence-level function returns exactly the formula body at
`sentences := 1` on the sentence's own statistics with no rounding; the
Flesch-Kincaid sentence-level function returns the `Math.round` of that
value. -/
theorem claim4_sentence_functions_amended (daleChallWords spacheWords : List (List Char))
    (syl : List Char → Nat) (sentence : List Char) :
    getAutomatedReadabilitySentence sentence =
      calculateAutomatedReadability 1 (getWordCount sentence) (getCharacterCount sentence) ∧
    getFleschSentence syl sentence =
      calculateFlesch 1 (getWordCount sentence) (syl sentence) ∧
    getColemanLiauSentence sentence =
      calculateColemanLiau 1 (getWordCount sentence) (getCharacterCount sentence) ∧
    getDaleChallSentence daleChallWords spacheWords sentence =
      calculateDaleChall 1 (getWordCount sentence)
        ((getDifficultWordCount daleChallWords spacheWords sentence vocabDaleChall : ℚ) /
          (getWordCount sentence : ℚ) * 100) ∧
    getSpacheSentence daleChallWords spacheWords sentence =
      calculateSpache 1 (getWordCount sentence)
        (getDifficultWordCount daleChallWords spacheWords sentence vocabSpache) ∧
    getFleschKincaidSentence syl sentence =
      ((jsRound (calculateFleschKincaid 1 (getWordCount sentence) (syl sentence)) : ℤ) : ℚ) :=
  ⟨rfl, rfl, rfl, rfl, rfl, rfl⟩

/-- C6: on `original = a**b**c`, `stripped = abc`, the constructor records
exactly the seams (1, 2) and (2, 2), and `lookup(1, 1)` returns (3, 1). -/
theorem claim6_seam_concrete :
    SeamFinder.seams ['a','*','*','b','*','*','c'] ['a','b','c'] = [(1, 2), (2, 2)] ∧
    SeamFinder.lookup [(1, 2), (2, 2)] 1 1 = (3, 1) := by
  decide

/-- C7 counterexample: on the text `Hi.` the character count is 3 (the
whitespace strip removes nothing and the period is counted), not 2 as the
claim states. -/
theorem claim7_characterCount_cex : getCharacterCount ['H','i','.'] ≠ 2 := by
  decide

/-- C7 amended: on the text `Hi.` the word count is 1, the character count
is 3, the sentence count is 1, and the Automated Readability Index
document score is the ceiling of the formula on those counts. -/
theorem claim7_hi_counts_amended :
    getWordCount ['H','i','.'] = 1 ∧ getCharacterCount ['H','i','.'] = 3 ∧
    getSentenceCount ['H','i','.'] = 1 ∧
    getAutomatedReadabilityDoc ['H','i','.'] =
      jsCeil (calculateAutomatedReadability 1 1 3) := by
  have hw : getWordCount ['H','i','.'] = 1 := by decide
  have hc : getCharacterCount ['H','i','.'] = 3 := by decide
  have hs : getSentenceCount ['H','i','.'] = 1 := by decide
  refine ⟨hw, hc, hs, ?_⟩
  unfold getAutomatedReadabilityDoc
  rw [hw, hc, hs]
  norm_num

/-- C8: for any list of scored sentences whose scores are a permutation of
[10, 50, 5, 80, 30], the incremental insert-sort-truncate-to-3 retention
loop (score descending) retains exactly the sentences scored 80, 50 and
30, regardless of processing order. -/
theorem claim8_ranker_top3 {α : Type} (l : List (ℚ × α))
    (h : (l.map Prod.fst).Perm [10, 50, 5, 80, 30]) :
    ((rankSentences l).map Prod.fst).Perm [80, 50, 30] := by
  have key : ∀ s ∈ ([10, 50, 5, 80, 30] : List ℚ).permutations',
      rankScores s = [80, 50, 30] := by decide
  have hmem : l.map Prod.fst ∈ ([10, 50, 5, 80, 30] : List ℚ).permutations' :=
    List.mem_permutations'.2 h
  rw [map_fst_rankSentences, key _ hmem]

theorem claim8_ranker_top3_witness :
    (([((10 : ℚ), 0), (50, 1), (5, 2), (80, 3), (30, 4)]).map Prod.fst).Perm
        [10, 50, 5, 80, 30] ∧
    ((rankSentences [((10 : ℚ), 0), (50, 1), (5, 2), (80, 3), (30, 4)]).map
        Prod.fst).Perm [80, 50, 30] :=
  ⟨by decide, claim8_ranker_top3 [((10 : ℚ), 0), (50, 1), (5, 2), (80, 3), (30, 4)]
    (by decide)⟩

theorem gapSeams_mem {ms : List Nat} : ∀ {expected j : Nat} {p : Nat × Nat},
    p ∈ gapSeams expected j ms → j ≤ p.1 ∧ p.1 < j + ms.length ∧ 1 ≤ p.2 := by
  induction ms with
  | nil => intro expected j p h; simp [gapSeams] at h
  | cons a ms ih =>
    intro expected j p h
    simp only [gapSeams, List.mem_append] at h
    rcases h with h | h
    · by_cases hc : expected < a
      · rw [if_pos hc] at h
        simp only [List.mem_singleton] at h
        subst h
        refine ⟨le_refl j, ?_, ?_⟩ <;> simp <;> omega
      · rw [if_neg hc] at h
        simp at h
    · have h2 := ih h
      refine ⟨by omega, ?_, h2.2.2⟩
      have := h2.2.1
      simp only [List.length_cons]
      omega

theorem gapSeams_pairwise : ∀ (ms : List Nat) (expected j : Nat),
    List.Pairwise (fun p q : Nat × Nat => p.1 < q.1) (gapSeams expected j ms) := by
  intro ms
  induction ms with
  | nil => intro _ _; simp [gapSeams]
  | cons a ms ih =>
    intro expected j
    simp only [gapSeams]
    by_cases hc : expected < a
    · rw [if_pos hc]
      simp only [List.singleton_append]
      refine List.Pairwise.cons ?_ (ih _ _)
      intro q hq
      have := gapSeams_mem hq
      omega
    · rw [if_neg hc]
      simp only [List.nil_append]
      exact ih _ _

theorem buildSeams_eq_gapSeams : ∀ (os ss : List Char) (oi si : Nat),
    (∀ v, v < oi → buildSeams os ss oi si (some v) = gapSeams v si (greedyMatched os ss oi)) ∧
    buildSeams os ss oi si none = gapSeams oi si (greedyMatched os ss oi) := by
  intro os
  induction os with
  | nil =>
    intro ss oi si
    constructor
    · intro v hv; cases ss <;> simp [buildSeams, greedyMatched, gapSeams]
    · cases ss <;> simp [buildSeams, greedyMatched, gapSeams]
  | cons o os ih =>
    intro ss oi si
    cases ss with
    | nil =>
      constructor
      · intro v hv; simp [buildSeams, greedyMatched, gapSeams]
      · simp [buildSeams, greedyMatched, gapSeams]
    | cons s ss =>
      by_cases h : o = s
      · constructor
        · intro v hv
          simp only [buildSeams, greedyMatched, if_pos h]
          rw [(ih ss (oi + 1) (si + 1)).2]
          simp only [gapSeams, if_pos hv]
        · simp only [buildSeams, greedyMatched, if_pos h]
          rw [(ih ss (oi + 1) (si + 1)).2]
          simp only [gapSeams, lt_irrefl, if_false, List.nil_append]
      · constructor
        · intro v hv
          simp only [buildSeams, greedyMatched, if_neg h, Option.getD_some]
          exact (ih (s :: ss) (oi + 1) si).1 v (by omega)
        · simp only [buildSeams, greedyMatched, if_neg h, Option.getD_none]
          exact (ih (s :: ss) (oi + 1) si).1 oi (by omega)

theorem greedyMatched_length_le : ∀ (os ss : List Char) (oi : Nat),
    (greedyMatched os ss oi).length ≤ ss.length := by
  intro os
  induction os with
  | nil => intro ss oi; simp [greedyMatched]
  | cons o os ih =>
    intro ss oi
    cases ss with
    | nil => simp [greedyMatched]
    | cons s ss =>
      by_cases h : o = s
      · simp only [greedyMatched, if_pos h, List.length_cons]
        exact Nat.succ_le_succ (ih ss (oi + 1))
      · simp only [greedyMatched, if_neg h]
        exact ih (s :: ss) (oi + 1)

theorem greedyMatched_length_of_sublist : ∀ (os ss : List Char) (oi : Nat),
    List.Sublist ss os → (greedyMatched os ss oi).length = ss.length := by
  intro os
  induction os with
  | nil =>
    intro ss oi h
    rw [List.sublist_nil.mp h]
    simp [greedyMatched]
  | cons o os ih =>
    intro ss oi h
    cases ss with
    | nil => simp [greedyMatched]
    | cons s ss =>
      by_cases he : o = s
      · subst he
        simp only [greedyMatched, eq_self_iff_true, if_true, List.length_cons]
        have hsub : List.Sublist ss os := by
          cases h with
          | cons _ h2 => exact List.sublist_of_cons_sublist h2
          | cons₂ _ h2 => exact h2
        rw [ih ss (oi + 1) hsub]
      · simp only [greedyMatched, if_neg he]
        have hsub : List.Sublist (s :: ss) os := by
          cases h with
          | cons _ h2 => exact h2
          | cons₂ _ h2 => exact absurd rfl he
        rw [ih (s :: ss) (oi + 1) hsub]

theorem greedyMatched_lower : ∀ (os ss : List Char) (oi x : Nat),
    x ∈ greedyMatched os ss oi → oi ≤ x := by
  intro os
  induction os with
  | nil => intro ss oi x h; simp [greedyMatched] at h
  | cons o os ih =>
    intro ss oi x h
    cases ss with
    | nil => simp [greedyMatched] at h
    | cons s ss =>
      by_cases he : o = s
      · simp only [greedyMatched, if_pos he, List.mem_cons] at h
        rcases h with rfl | h
        · exact le_refl x
        · have := ih ss (oi + 1) x h
          omega
      · simp only [greedyMatched, if_neg he] at h
        have := ih (s :: ss) (oi + 1) x h
        omega

theorem greedyMatched_pairwise : ∀ (os ss : List Char) (oi : Nat),
    List.Pairwise (· < ·) (greedyMatched os ss oi) := by
  intro os
  induction os with
  | nil => intro ss oi; simp [greedyMatched]
  | cons o os ih =>
    intro ss oi
    cases ss with
    | nil => simp [greedyMatched]
    | cons s ss =>
      by_cases he : o = s
      · simp only [greedyMatched, if_pos he]
        refine List.Pairwise.cons ?_ (ih ss (oi + 1))
        intro x hx
        have := greedyMatched_lower os ss (oi + 1) x hx
        omega
      · simp only [greedyMatched, if_neg he]
        exact ih (s :: ss) (oi + 1)

theorem greedyMatched_getD : ∀ (os ss : List Char) (oi j : Nat),
    j < (greedyMatched os ss oi).length →
    ∃ k, (greedyMatched os ss oi).getD j 0 = oi + k ∧ k < os.length ∧
      os.getD k ' ' = ss.getD j ' ' := by
  intro os
  induction os with
  | nil => intro ss oi j h; simp [greedyMatched] at h
  | cons o os ih =>
    intro ss oi j h
    cases ss with
    | nil => simp [greedyMatched] at h
    | cons s ss =>
      by_cases he : o = s
      · cases j with
        | zero =>
          refine ⟨0, ?_, by simp, ?_⟩
          · simp [greedyMatched, if_pos he]
          · simp only [List.getD_cons_zero]
            exact he
        | succ j =>
          simp only [greedyMatched, if_pos he, List.length_cons] at h
          obtain ⟨k, hk1, hk2, hk3⟩ := ih ss (oi + 1) j (Nat.lt_of_succ_lt_succ h)
          refine ⟨k + 1, ?_, ?_, ?_⟩
          · simp only [greedyMatched, if_pos he, List.getD_cons_succ, hk1]
            omega
          · simp only [List.length_cons]
            omega
          · simp only [List.getD_cons_succ]
            exact hk3
      · simp only [greedyMatched, if_neg he] at h ⊢
        obtain ⟨k, hk1, hk2, hk3⟩ := ih (s :: ss) (oi + 1) j h
        refine ⟨k + 1, ?_, ?_, ?_⟩
        · rw [hk1]; omega
        · simp only [List.length_cons]; omega
        · simp only [List.getD_cons_succ]
          exact hk3

theorem gapSeams_sum : ∀ (ms : List Nat) (expected j K : Nat),
    List.Pairwise (· < ·) ms → (∀ a ∈ ms, expected ≤ a) → K < ms.length →
    (((gapSeams expected j ms).filter (fun p => p.1 ≤ j + K)).map Prod.snd).sum
      + expected + K = ms.getD K 0 := by
  intro ms
  induction ms with
  | nil => intro expected j K _ _ hK; simp at hK
  | cons a ms ih =>
    intro expected j K hpw hlb hK
    have hexp : expected ≤ a := hlb a (List.mem_cons_self a ms)
    simp only [gapSeams, List.filter_append, List.map_append, List.sum_append]
    cases K with
    | zero =>
      have htail : (gapSeams (a + 1) (j + 1) ms).filter
          (fun p => decide (p.1 ≤ j + 0)) = [] := by
        rw [List.filter_eq_nil_iff]
        intro p hp
        have := gapSeams_mem hp
        simp only [decide_eq_true_eq]
        omega
      rw [htail]
      by_cases hc : expected < a
      · rw [if_pos hc]
        have hhead : (List.filter (fun p => decide (p.1 ≤ j + 0)) [(j, a - expected)])
            = [(j, a - expected)] := by
          simp only [List.filter_cons, decide_eq_true_eq]
          rw [if_pos (by omega)]
          rfl
        rw [hhead]
        simp only [List.map_cons, List.map_nil, List.sum_cons, List.sum_nil,
          List.getD_cons_zero]
        omega
      · rw [if_neg hc]
        simp only [List.filter_nil, List.map_nil, List.sum_nil, List.getD_cons_zero]
        omega
    | succ K =>
      have hpw2 : List.Pairwise (· < ·) ms := hpw.of_cons
      have hlb2 : ∀ b ∈ ms, a + 1 ≤ b := by
        intro b hb
        have := (List.pairwise_cons.mp hpw).1 b hb
        omega
      have hK2 : K < ms.length := by
        simp only [List.length_cons] at hK
        omega
      have hIH := ih (a + 1) (j + 1) K hpw2 hlb2 hK2
      have hidx : j + (K + 1) = j + 1 + K := by omega
      rw [hidx, List.getD_cons_succ]
      by_cases hc : expected < a
      · rw [if_pos hc]
        have hhead : (List.filter (fun p => decide (p.1 ≤ j + 1 + K)) [(j, a - expected)])
            = [(j, a - expected)] := by
          simp only [List.filter_cons, decide_eq_true_eq]
          rw [if_pos (by omega)]
          rfl
        rw [hhead]
        simp only [List.map_cons, List.map_nil, List.sum_cons, List.sum_nil]
        omega
      · rw [if_neg hc]
        simp only [List.filter_nil, List.map_nil, List.sum_nil, List.nil_append]
        have : expected = a := by omega
        omega

theorem mem_iff_getD {l : List Nat} {x : Nat} :
    x ∈ l ↔ ∃ t, t < l.length ∧ l.getD t 0 = x := by
  rw [List.mem_iff_getElem]
  constructor
  · rintro ⟨n, h, rfl⟩
    exact ⟨n, h, List.getD_eq_getElem l 0 h⟩
  · rintro ⟨t, ht, hx⟩
    exact ⟨t, ht, by rw [← List.getD_eq_getElem l 0 ht, hx]⟩

theorem sorted_getD_lt {m : List Nat} (hpw : List.Pairwise (· < ·) m)
    {i j : Nat} (hi : i < m.length) (hj : j < m.length) (hij : i < j) :
    m.getD i 0 < m.getD j 0 := by
  rw [List.getD_eq_getElem m 0 hi, List.getD_eq_getElem m 0 hj]
  exact List.pairwise_iff_getElem.mp hpw i j hi hj hij

theorem sorted_getD_le {m : List Nat} (hpw : List.Pairwise (· < ·) m)
    {i j : Nat} (hi : i < m.length) (hj : j < m.length) (hij : i ≤ j) :
    m.getD i 0 ≤ m.getD j 0 := by
  rcases Nat.eq_or_lt_of_le hij with rfl | hlt
  · exact le_refl _
  · exact le_of_lt (sorted_getD_lt hpw hi hj hlt)

theorem filter_range'_of_sorted (m : List Nat) (hpw : List.Pairwise (· < ·) m)
    (s len : Nat) (hlen : 1 ≤ len) (hrange : s + len ≤ m.length) :
    (List.range' (m.getD s 0) (m.getD (s + len - 1) 0 + 1 - m.getD s 0)).filter
        (fun i => decide (i ∈ m))
      = (m.drop s).take len := by
  have hslt : s < m.length := by omega
  have helt : s + len - 1 < m.length := by omega
  have hab : m.getD s 0 ≤ m.getD (s + len - 1) 0 :=
    sorted_getD_le hpw hslt helt (by omega)
  have hYlen : ((m.drop s).take len).length = len := by
    simp only [List.length_take, List.length_drop]
    omega
  have hYget : ∀ t, t < len → ((m.drop s).take len).getD t 0 = m.getD (s + t) 0 := by
    intro t ht
    rw [List.getD_eq_getElem _ 0 (by rw [hYlen]; exact ht),
      List.getD_eq_getElem m 0 (by omega), List.getElem_take, List.getElem_drop]
  have hYmem : ∀ x, x ∈ (m.drop s).take len ↔
      (x ∈ m ∧ m.getD s 0 ≤ x ∧ x ≤ m.getD (s + len - 1) 0) := by
    intro x
    constructor
    · intro hx
      obtain ⟨t, ht, hxe⟩ := mem_iff_getD.mp hx
      rw [hYlen] at ht
      rw [hYget t ht] at hxe
      refine ⟨mem_iff_getD.mpr ⟨s + t, by omega, hxe⟩, ?_, ?_⟩
      · rw [← hxe]
        exact sorted_getD_le hpw hslt (by omega) (by omega)
      · rw [← hxe]
        exact sorted_getD_le hpw (by omega) helt (by omega)
    · rintro ⟨hxm, hax, hxb⟩
      obtain ⟨u, hu, hux⟩ := mem_iff_getD.mp hxm
      have hsu : s ≤ u := by
        by_contra hcon
        push_neg at hcon
        have := sorted_getD_lt hpw hu hslt hcon
        omega
      have hue : u < s + len := by
        by_contra hcon
        push_neg at hcon
        have := sorted_getD_lt hpw helt hu (by omega)
        omega
      refine mem_iff_getD.mpr ⟨u - s, by rw [hYlen]; omega, ?_⟩
      rw [hYget (u - s) (by omega)]
      have hux2 : s + (u - s) = u := by omega
      rw [hux2]
      exact hux
  have hXmem : ∀ x, x ∈ (List.range' (m.getD s 0)
      (m.getD (s + len - 1) 0 + 1 - m.getD s 0)).filter (fun i => decide (i ∈ m)) ↔
      (x ∈ m ∧ m.getD s 0 ≤ x ∧ x ≤ m.getD (s + len - 1) 0) := by
    intro x
    rw [List.mem_filter, List.mem_range'_1, decide_eq_true_eq]
    constructor
    · rintro ⟨⟨h1, h2⟩, h3⟩
      exact ⟨h3, h1, by omega⟩
    · rintro ⟨h1, h2, h3⟩
      exact ⟨⟨h2, by omega⟩, h1⟩
  have hXpw : List.Pairwise (· < ·) ((List.range' (m.getD s 0)
      (m.getD (s + len - 1) 0 + 1 - m.getD s 0)).filter (fun i => decide (i ∈ m))) :=
    List.Pairwise.sublist (List.filter_sublist _) (List.pairwise_lt_range' _ _)
  have hYpw : List.Pairwise (· < ·) ((m.drop s).take len) :=
    List.Pairwise.sublist ((List.take_sublist _ _).trans (List.drop_sublist _ _)) hpw
  have hXnd : ((List.range' (m.getD s 0)
      (m.getD (s + len - 1) 0 + 1 - m.getD s 0)).filter (fun i => decide (i ∈ m))).Nodup :=
    hXpw.imp (fun h => Nat.ne_of_lt h)
  have hYnd : ((m.drop s).take len).Nodup :=
    hYpw.imp (fun h => Nat.ne_of_lt h)
  have hperm := List.perm_of_nodup_nodup_toFinset_eq hXnd hYnd (by
    apply Finset.ext
    intro x
    rw [List.mem_toFinset, List.mem_toFinset, hXmem, hYmem])
  exact List.eq_of_perm_of_sorted hperm
    (hXpw.imp (fun h => le_of_lt h)) (hYpw.imp (fun h => le_of_lt h))

/-- C3: SeamFinder round-trip: for every original text and stripped text
that is a subsequence of it, and every valid range in the stripped text,
`lookup` returns an original-text range from which removing the characters
not aligned to stripped positions under the greedy left-to-right alignment
reconstructs exactly the queried stripped substring. -/
theorem claim3_seamFinder_roundtrip (original stripped : List Char)
    (hsub : List.Sublist stripped original) (strippedOffset strippedLength : Nat)
    (hlen : 1 ≤ strippedLength)
    (hrange : strippedOffset + strippedLength ≤ stripped.length) :
    ∃ originalOffset originalLength : Nat,
      SeamFinder.lookup (SeamFinder.seams original stripped) strippedOffset strippedLength
        = ((originalOffset : Int), (originalLength : Int)) ∧
      ((List.range' originalOffset originalLength).filter
          (fun i => decide (i ∈ greedyMatched original stripped 0))).map
        (fun i => original.getD i ' ')
        = (stripped.drop strippedOffset).take strippedLength := by
  have hmlen : (greedyMatched original stripped 0).length = stripped.length :=
    greedyMatched_length_of_sublist original stripped 0 hsub
  have hpw := greedyMatched_pairwise original stripped 0
  have hseams : SeamFinder.seams original stripped
      = gapSeams 0 0 (greedyMatched original stripped 0) :=
    (buildSeams_eq_gapSeams original stripped 0 0).2
  set m := greedyMatched original stripped 0 with hm
  have hsK : strippedOffset < m.length := by omega
  have heK : strippedOffset + strippedLength - 1 < m.length := by omega
  have hlb : ∀ a ∈ m, 0 ≤ a := fun a _ => Nat.zero_le a
  have hsum1 := gapSeams_sum m 0 0 strippedOffset hpw hlb hsK
  have hsum2 := gapSeams_sum m 0 0 (strippedOffset + strippedLength - 1) hpw hlb heK
  have hab : m.getD strippedOffset 0 ≤ m.getD (strippedOffset + strippedLength - 1) 0 :=
    sorted_getD_le hpw hsK heK (by omega)
  refine ⟨m.getD strippedOffset 0,
    m.getD (strippedOffset + strippedLength - 1) 0 + 1 - m.getD strippedOffset 0, ?_, ?_⟩
  · simp only [SeamFinder.lookup]
    rw [hseams]
    have hf1 : (gapSeams 0 0 m).filter (fun p => decide (p.1 ≤ strippedOffset))
        = (gapSeams 0 0 m).filter (fun p => decide (p.1 ≤ 0 + strippedOffset)) := by
      apply List.filter_congr
      intro p _
      simp only [decide_eq_decide]
      omega
    have hf2 : (gapSeams 0 0 m).filter
          (fun p => decide (p.1 < strippedOffset + strippedLength))
        = (gapSeams 0 0 m).filter
          (fun p => decide (p.1 ≤ 0 + (strippedOffset + strippedLength - 1))) := by
      apply List.filter_congr
      intro p _
      simp only [decide_eq_decide]
      omega
    rw [hf1, hf2]
    rw [Prod.mk.injEq]
    constructor
    · omega
    · omega
  · rw [filter_range'_of_sorted m hpw strippedOffset strippedLength hlen (by omega)]
    apply List.ext_getElem
    · simp only [List.length_map, List.length_take, List.length_drop]
      omega
    · intro t h1 h2
      simp only [List.length_map, List.length_take, List.length_drop] at h1
      simp only [List.getElem_map, List.getElem_take, List.getElem_drop]
      obtain ⟨k, hk1, hk2, hk3⟩ :=
        greedyMatched_getD original stripped 0 (strippedOffset + t) (by rw [← hm]; omega)
      rw [← List.getD_eq_getElem m 0 (by omega : strippedOffset + t < m.length)]
      rw [← hm] at hk1
      rw [hk1, Nat.zero_add]
      rw [List.getD_eq_getElem stripped ' '
        (by omega : strippedOffset + t < stripped.length)] at hk3
      exact hk3

/-- C10: for every pair of texts, every recorded seam has its stripped
index below the number of greedily matched stripped positions (hence below
the stripped length: no seam is recorded for characters elided after the
last matched character, a pending run being dropped at exhaustion), every
deleted-run length is at least 1, and the stripped indices are strictly
increasing in recording order. -/
theorem claim10_seam_invariants (original stripped : List Char) :
    (∀ p ∈ SeamFinder.seams original stripped,
        p.1 < (greedyMatched original stripped 0).length ∧
        p.1 < stripped.length ∧ 1 ≤ p.2) ∧
    List.Pairwise (fun p q : Nat × Nat => p.1 < q.1)
      (SeamFinder.seams original stripped) := by
  have hseams : SeamFinder.seams original stripped
      = gapSeams 0 0 (greedyMatched original stripped 0) :=
    (buildSeams_eq_gapSeams original stripped 0 0).2
  constructor
  · intro p hp
    rw [hseams] at hp
    have h1 := gapSeams_mem hp
    have h2 := greedyMatched_length_le original stripped 0
    exact ⟨by omega, by omega, h1.2.2⟩
  · rw [hseams]
    exact gapSeams_pairwise _ _ _

theorem claim3_roundtrip_witness :
    ∃ originalOffset originalLength : Nat,
      SeamFinder.lookup
          (SeamFinder.seams ['a','*','*','b','*','*','c'] ['a','b','c']) 1 1
        = ((originalOffset : Int), (originalLength : Int)) ∧
      ((List.range' originalOffset originalLength).filter
          (fun i => decide (i ∈ greedyMatched ['a','*','*','b','*','*','c'] ['a','b','c'] 0))).map
        (fun i => (['a','*','*','b','*','*','c'] : List Char).getD i ' ')
        = ((['a','b','c'] : List Char).drop 1).take 1 :=
  claim3_seamFinder_roundtrip ['a','*','*','b','*','*','c'] ['a','b','c']
    (by decide) 1 1 (by decide) (by decide)
